import Mathlib

/-!
Verification of the go-har HAR (HTTP Archive) parsing library.

This file gives a shallow embedding, in Lean 4, of the parts of the
go-har repository that the verified properties talk about: the canonical
data model (`Har` and its components), the validator
(`ValidateHarFile`, `DetectHarVersion`), the memory-optimized
representation and its conversions (`ToOptimizedHar`, `ToStandardHar`),
the lazy representation (`LazyContent`, `LazyHar.ToStandardHar`), the
lenient parser (`parseLenient`), the streaming entry iterator
(`StreamingEntryIterator.Next` / `Err`), the provider accessors, and the
`Parse` entry-point dispatch.

Modelling conventions, used uniformly below:
* Go `float64` fields and `time.Time` fields are modelled as `Int`.
  The code only copies these values around and compares them against
  the constants `0` and `-1` (`time.Time` is only tested with `IsZero`),
  so the exact carrier is irrelevant; an integral carrier keeps every
  definition decidable.
* Go pointer fields (`*float64`, `*string`, `*int`, `*Cache`,
  `*OptimizedContent`) are modelled as `Option`; `none` is Go `nil`.
* Go `map[string]string` is modelled as an association list
  (`List (String × String)`) with last-write-wins insertion.  Go map
  iteration order is unspecified, so theorems about the conversion of a
  map back to a header list are stated in terms of the *set* of
  name/value pairs, never in terms of list order.
* Go slices are modelled as `List`, except `Log.Entries`, whose nil-ness
  is observed by the validator (`har.Log.Entries == nil`) and is
  therefore modelled as `Option (List Entries)` with `none` for a nil
  slice.
* The nested `Initiator` extension struct and the untyped
  `Request.PostData`/`Response.Error` fields are only ever copied
  wholesale or dropped by the code under study; they are modelled as an
  opaque `String` (for `Initiator`) and `Option String` respectively.
-/

set_option autoImplicit false

namespace GoHar

/-- Headers models the Go struct `Headers` (pkg/har): one HTTP header or
query-string parameter, a name/value pair. -/
structure Headers where
  name : String
  value : String
  deriving DecidableEq, Repr

/-- Cookie models the Go struct `Cookie` (pkg/har). -/
structure Cookie where
  name : String
  value : String
  path : String
  domain : String
  expires : Int
  httpOnly : Bool
  secure : Bool
  sameSite : String
  deriving DecidableEq, Repr

/-- Content models the Go struct `Content`: the body of an HTTP
response.  In Go, `Text` and `Encoding` are plain strings with
`omitempty`; an absent JSON field leaves them at the empty string. -/
structure Content where
  size : Int
  mimeType : String
  text : String
  encoding : String
  deriving DecidableEq, Repr

/-- Request models the Go struct `Request`.  `PostData` has type
`interface\x7b\x7d` in Go and is modelled opaquely. -/
structure Request where
  method : String
  url : String
  httpVersion : String
  cookies : List Cookie
  headers : List Headers
  queryString : List Headers
  postData : Option String
  headersSize : Int
  bodySize : Int
  deriving DecidableEq, Repr

/-- Response models the Go struct `Response`.  The untyped `Error`
extension field is modelled opaquely. -/
structure Response where
  status : Int
  statusText : String
  httpVersion : String
  cookies : List Cookie
  headers : List Headers
  content : Content
  redirectURL : String
  headersSize : Int
  bodySize : Int
  transferSize : Int
  error : Option String
  deriving DecidableEq, Repr

/-- CacheState models the Go structs `BeforeRequest`/`AfterRequest`
(identical field lists). -/
structure CacheState where
  expires : Int
  lastAccess : Int
  eTag : String
  hitCount : Int
  comment : String
  deriving DecidableEq, Repr

/-- Cache models the Go struct `Cache`. -/
structure Cache where
  beforeRequest : Option CacheState
  afterRequest : Option CacheState
  comment : String
  deriving DecidableEq, Repr

/-- Timings models the Go struct `Timings` (pkg/har): nine plain
`float64` fields.  None of them is a pointer, so an absent JSON key
decodes to the zero value. -/
structure Timings where
  blocked : Int
  dns : Int
  connect : Int
  ssl : Int
  send : Int
  wait : Int
  receive : Int
  blockedQueueing : Int
  blockedProxy : Int
  deriving DecidableEq, Repr

/-- Entries models the Go struct `Entries`: one recorded HTTP
transaction.  `initiator` stands for the nested Chrome-DevTools
`Initiator` struct, which the studied code only copies or drops
wholesale. -/
structure Entries where
  startedDateTime : Int
  time : Int
  request : Request
  response : Response
  cache : Cache
  timings : Timings
  pageref : String
  serverIPAddress : String
  connection : String
  initiator : String
  priority : String
  resourceType : String
  deriving DecidableEq, Repr

/-- Creator models the Go struct `Creator` (pkg/har: name and version
only). -/
structure Creator where
  name : String
  version : String
  deriving DecidableEq, Repr

/-- PageTimings models the Go struct `PageTimings`. -/
structure PageTimings where
  onContentLoad : Int
  onLoad : Int
  comment : String
  deriving DecidableEq, Repr

/-- Pages models the Go struct `Pages`. -/
structure Pages where
  startedDateTime : Int
  id : String
  title : String
  pageTimings : PageTimings
  deriving DecidableEq, Repr

/-- Log models the Go struct `Log`.  `entries` is `Option` because the
validator distinguishes a nil `Entries` slice from an empty one. -/
structure Log where
  version : String
  creator : Creator
  pages : List Pages
  entries : Option (List Entries)
  deriving DecidableEq, Repr

/-- Har models the Go struct `Har`, the root of an archive. -/
structure Har where
  log : Log
  deriving DecidableEq, Repr

/-- entriesList is the list of entries of an archive; Go range-iterates
a nil slice as an empty one. -/
def Har.entriesList (h : Har) : List Entries :=
  h.log.entries.getD []

end GoHar

namespace GoHar

/-- ErrorCode models the Go `ErrorCode` enumeration from the error
model. -/
inductive ErrorCode where
  | unknown
  | fileSystem
  | jsonParse
  | invalidFormat
  | validation
  | missingField
  | invalidValue
  | unsupported
  deriving DecidableEq, Repr

/-- PErr models one partial error (`*HarError` without nested partials):
the validator and the lenient parser only ever attach flat partial
errors to a single root error.  The Go message strings are abbreviated
to short English stand-ins; no studied property depends on message
text. -/
structure PErr where
  code : ErrorCode
  message : String
  field : String
  deriving DecidableEq, Repr

/-- NewValidationError models the Go constructor of the same name. -/
def NewValidationError (message fieldPath : String) : PErr :=
  ⟨ErrorCode.validation, message, fieldPath⟩

/-- NewMissingFieldError models the Go constructor of the same name. -/
def NewMissingFieldError (fieldPath : String) : PErr :=
  ⟨ErrorCode.missingField, "required field missing", fieldPath⟩

/-- goURLParseFails models the failure condition of Go `url.Parse` as
used by the validator: for the URL strings arising in this development,
`url.Parse` fails exactly when the string contains an ASCII control
character. -/
def goURLParseFails (s : String) : Bool :=
  s.toList.any (fun c => c.toNat < 32)

/-- validateBasicStructure models the Go function of the same name: the
partial errors it appends to the root error. -/
def validateBasicStructure (h : Har) : List PErr :=
  (if h.log.version = "" then [NewMissingFieldError "log.version"] else []) ++
  (if h.log.creator.name = "" then [NewMissingFieldError "log.creator.name"] else []) ++
  (if h.log.creator.version = "" then [NewMissingFieldError "log.creator.version"] else []) ++
  (if h.log.entries = none then [NewMissingFieldError "log.entries"] else [])

/-- validateHeadersList models Go `validateHeaders`, indexed from the
given position. -/
def validateHeadersList (fieldPath : String) : Nat → List Headers → List PErr
  | _, [] => []
  | i, hd :: rest =>
    (if hd.name = "" then
      [NewValidationError "header must have a name"
        (fieldPath ++ "[" ++ toString i ++ "].name")]
     else []) ++ validateHeadersList fieldPath (i + 1) rest

/-- validateCookiesList models Go `validateCookies`, indexed from the
given position. -/
def validateCookiesList (fieldPath : String) : Nat → List Cookie → List PErr
  | _, [] => []
  | i, c :: rest =>
    (if c.name = "" then
      [NewValidationError "cookie must have a name"
        (fieldPath ++ "[" ++ toString i ++ "].name")]
     else []) ++ validateCookiesList fieldPath (i + 1) rest

/-- validateRequest models the Go function of the same name. -/
def validateRequest (req : Request) (fieldPath : String) : List PErr :=
  (if req.method = "" then
    [NewValidationError "request must have a method" (fieldPath ++ ".method")]
   else []) ++
  (if req.url = "" then
    [NewValidationError "request must have a URL" (fieldPath ++ ".url")]
   else if goURLParseFails req.url then
    [NewValidationError "invalid URL format" (fieldPath ++ ".url")]
   else []) ++
  (if req.httpVersion = "" then
    [NewValidationError "request must have a version" (fieldPath ++ ".httpVersion")]
   else []) ++
  validateHeadersList (fieldPath ++ ".headers") 0 req.headers ++
  validateCookiesList (fieldPath ++ ".cookies") 0 req.cookies

/-- validateContent models the Go function of the same name. -/
def validateContent (content : Content) (fieldPath : String) : List PErr :=
  if content.mimeType = "" then
    [NewValidationError "content must have a MIME type" (fieldPath ++ ".mimeType")]
  else []

/-- validateResponse models the Go function of the same name. -/
def validateResponse (resp : Response) (fieldPath : String) : List PErr :=
  (if resp.status ≤ 0 then
    [NewValidationError "response must have a valid status code" (fieldPath ++ ".status")]
   else []) ++
  (if resp.httpVersion = "" then
    [NewValidationError "response must have a version" (fieldPath ++ ".httpVersion")]
   else []) ++
  validateContent resp.content (fieldPath ++ ".content") ++
  validateHeadersList (fieldPath ++ ".headers") 0 resp.headers ++
  validateCookiesList (fieldPath ++ ".cookies") 0 resp.cookies

/-- validateTimings models the Go function of the same name. -/
def validateTimings (t : Timings) (fieldPath : String) : List PErr :=
  (if t.wait < 0 then
    [NewValidationError "wait time cannot be negative" (fieldPath ++ ".wait")]
   else []) ++
  (if t.receive < 0 then
    [NewValidationError "receive time cannot be negative" (fieldPath ++ ".receive")]
   else [])

/-- validateEntry collects the partial errors Go `validateEntries`
produces for the entry at index `i`. -/
def validateEntry (i : Nat) (e : Entries) : List PErr :=
  let entryPrefix := "log.entries[" ++ toString i ++ "]"
  (if e.startedDateTime = 0 then
    [NewValidationError "entry must have a start time"
      (entryPrefix ++ ".startedDateTime")]
   else []) ++
  validateRequest e.request (entryPrefix ++ ".request") ++
  validateResponse e.response (entryPrefix ++ ".response") ++
  validateTimings e.timings (entryPrefix ++ ".timings")

/-- validateEntriesFrom iterates Go `validateEntries` from index `i`. -/
def validateEntriesFrom : Nat → List Entries → List PErr
  | _, [] => []
  | i, e :: rest => validateEntry i e ++ validateEntriesFrom (i + 1) rest

/-- validateEntries models the Go function of the same name. -/
def validateEntries (es : List Entries) : List PErr :=
  validateEntriesFrom 0 es

/-- validatePage collects the partial errors Go `validatePages` produces
for the page at index `i` (`validatePageTimings` is a no-op in Go). -/
def validatePage (i : Nat) (p : Pages) : List PErr :=
  let pagePath := "log.pages[" ++ toString i ++ "]"
  (if p.id = "" then
    [NewValidationError "page must have an ID" (pagePath ++ ".id")]
   else []) ++
  (if p.startedDateTime = 0 then
    [NewValidationError "page must have a start time"
      (pagePath ++ ".startedDateTime")]
   else [])

/-- validatePagesFrom iterates Go `validatePages` from index `i`. -/
def validatePagesFrom : Nat → List Pages → List PErr
  | _, [] => []
  | i, p :: rest => validatePage i p ++ validatePagesFrom (i + 1) rest

/-- validatePages models the Go function of the same name. -/
def validatePages (ps : List Pages) : List PErr :=
  validatePagesFrom 0 ps

/-- versionSwitchErrs models the `switch har.Log.Version` statement of
`ValidateHarFile`: the per-version validators are no-ops, and an
unsupported version adds one partial error. -/
def versionSwitchErrs (h : Har) : List PErr :=
  if h.log.version = "1.1" ∨ h.log.version = "1.2" ∨ h.log.version = "1.3" then []
  else [NewValidationError ("unsupported HAR version: " ++ h.log.version) "log.version"]

/-- ValidateHarFile models the Go function of the same name, returning
`none` for a nil error and otherwise the partial-error list of the
single returned root error.  Note the early return: when
`validateBasicStructure` found any violation, the version, entry and
page checks never run. -/
def ValidateHarFile (h : Har) : Option (List PErr) :=
  let basic := validateBasicStructure h
  if basic ≠ [] then some basic
  else
    let rest := versionSwitchErrs h ++ validateEntries h.entriesList ++
      validatePages h.log.pages
    if rest ≠ [] then some rest else none

/-- IsValidHarVersion models the Go function of the same name. -/
def IsValidHarVersion (version : String) : Bool :=
  version == "1.1" || version == "1.2" || version == "1.3"

/-- goIsSpace models the white-space test of Go `strings.TrimSpace` for
the ASCII range (the only characters the version strings under study
contain). -/
def goIsSpace (c : Char) : Bool :=
  c = ' ' ∨ c = '\t' ∨ c = '\n' ∨ c = '\r'

/-- goTrimSpace models Go `strings.TrimSpace`, written over the
character list so that it evaluates inside the kernel. -/
def goTrimSpace (s : String) : String :=
  String.mk (((s.toList.dropWhile goIsSpace).reverse.dropWhile goIsSpace).reverse)

/-- goHasPrefix models Go `strings.HasPrefix`, written over the
character list so that it evaluates inside the kernel. -/
def goHasPrefix (s pre : String) : Bool :=
  s.toList.take pre.toList.length == pre.toList

/-- DetectHarVersion models the Go function of the same name; `none`
models a nil `*Har` receiver argument. -/
def DetectHarVersion (h : Option Har) : String :=
  match h with
  | none => "1.2"
  | some har =>
    if har.log.version = "" then "1.2"
    else
      let version := goTrimSpace har.log.version
      if IsValidHarVersion version then version
      else if goHasPrefix version "1.1" then "1.1"
      else if goHasPrefix version "1.2" then "1.2"
      else if goHasPrefix version "1.3" then "1.3"
      else "1.2"

end GoHar

namespace GoHar

/-- HTTPMethod models the Go `HTTPMethod` enumeration of the
memory-optimized representation. -/
inductive HTTPMethod where
  | unknown
  | get
  | post
  | put
  | delete
  | head
  | options
  | patch
  | connect
  | trace
  deriving DecidableEq, Repr

/-- methodString models the Go `HTTPMethod.String` method (the
`methodToString` table with `UNKNOWN` fallback). -/
def methodString : HTTPMethod → String
  | .unknown => "UNKNOWN"
  | .get => "GET"
  | .post => "POST"
  | .put => "PUT"
  | .delete => "DELETE"
  | .head => "HEAD"
  | .options => "OPTIONS"
  | .patch => "PATCH"
  | .connect => "CONNECT"
  | .trace => "TRACE"

/-- goToUpper models Go `strings.ToUpper` for ASCII input, written over
the character list so that it evaluates inside the kernel. -/
def goToUpper (s : String) : String :=
  String.mk (s.toList.map (fun c =>
    if 'a' ≤ c ∧ c ≤ 'z' then Char.ofNat (c.toNat - 32) else c))

/-- ParseMethod models the Go function of the same name (the
`stringToMethod` table applied to the upper-cased input, with `Unknown`
fallback). -/
def ParseMethod (method : String) : HTTPMethod :=
  match goToUpper method with
  | "GET" => .get
  | "POST" => .post
  | "PUT" => .put
  | "DELETE" => .delete
  | "HEAD" => .head
  | "OPTIONS" => .options
  | "PATCH" => .patch
  | "CONNECT" => .connect
  | "TRACE" => .trace
  | _ => .unknown

/-- GoMap models Go `map[string]string` as an association list; see the
header comment about iteration order. -/
abbrev GoMap := List (String × String)

/-- mapInsert models the Go map assignment `m[k] = v`: replace the
binding if the key is present, otherwise add it. -/
def mapInsert (m : GoMap) (k v : String) : GoMap :=
  if m.any (fun p => p.1 = k) then
    m.map (fun p => if p.1 = k then (k, v) else p)
  else m ++ [(k, v)]

/-- headersToMap models the Go loop `for _, header := range hs \x7b
m[header.Name] = header.Value \x7d` used by `convertToOptimizedEntry`. -/
def headersToMap (hs : List Headers) : GoMap :=
  hs.foldl (fun m h => mapInsert m h.name h.value) []

/-- mapToHeaders models the Go loop `for name, value := range m` that
rebuilds a header slice in `convertToStandardEntry`. -/
def mapToHeaders (m : GoMap) : List Headers :=
  m.map (fun p => ⟨p.1, p.2⟩)

/-- OptimizedTimings models the Go struct of the same name. -/
structure OptimizedTimings where
  blocked : Option Int
  dns : Option Int
  connect : Option Int
  send : Option Int
  wait : Option Int
  receive : Option Int
  ssl : Option Int
  blockedQueueing : Option Int
  blockedProxy : Option Int
  deriving DecidableEq, Repr

/-- OptimizedContent models the Go struct of the same name. -/
structure OptimizedContent where
  size : Int
  mimeType : String
  text : Option String
  encoding : Option String
  comment : Option String
  deriving DecidableEq, Repr

/-- OptimizedRequest models the Go struct of the same name. -/
structure OptimizedRequest where
  method : HTTPMethod
  url : String
  httpVersion : String
  cookies : List Cookie
  headers : GoMap
  queryString : GoMap
  headersSize : Option Int
  bodySize : Option Int
  deriving DecidableEq, Repr

/-- OptimizedResponse models the Go struct of the same name. -/
structure OptimizedResponse where
  status : Int
  statusText : String
  httpVersion : String
  cookies : List Cookie
  headers : GoMap
  redirectURL : String
  headersSize : Option Int
  bodySize : Option Int
  content : Option OptimizedContent
  transferSize : Option Int
  deriving DecidableEq, Repr

/-- OptimizedEntries models the Go struct of the same name. -/
structure OptimizedEntries where
  startedDateTime : Int
  time : Int
  request : OptimizedRequest
  response : OptimizedResponse
  cache : Option Cache
  timings : OptimizedTimings
  pageRef : Option String
  serverIP : Option String
  connection : Option String
  deriving DecidableEq, Repr

/-- OptimizedHar models the Go struct of the same name (the anonymous
`Log` wrapper struct is flattened). -/
structure OptimizedHar where
  version : String
  creator : Creator
  pages : List Pages
  entries : List OptimizedEntries
  deriving DecidableEq, Repr

/-- convertToOptimizedEntry models the Go function of the same name.
Note that the Go code initializes `QueryString` to an empty map and
never copies the standard entry's query string into it, and that only
`Size` and `MimeType` of the response content survive. -/
def convertToOptimizedEntry (entry : Entries) : OptimizedEntries where
  startedDateTime := entry.startedDateTime
  time := entry.time
  request :=
    { method := ParseMethod entry.request.method
      url := entry.request.url
      httpVersion := entry.request.httpVersion
      cookies := entry.request.cookies
      headers := headersToMap entry.request.headers
      queryString := ([] : GoMap)
      headersSize := if entry.request.headersSize ≠ 0 then some entry.request.headersSize else none
      bodySize := if entry.request.bodySize ≠ 0 then some entry.request.bodySize else none }
  response :=
    { status := entry.response.status
      statusText := entry.response.statusText
      httpVersion := entry.response.httpVersion
      cookies := entry.response.cookies
      headers := headersToMap entry.response.headers
      redirectURL := entry.response.redirectURL
      headersSize := if entry.response.headersSize ≠ 0 then some entry.response.headersSize else none
      bodySize := if entry.response.bodySize ≠ 0 then some entry.response.bodySize else none
      transferSize := if entry.response.transferSize ≠ 0 then some entry.response.transferSize else none
      content :=
        if entry.response.content.size ≠ 0 ∨ entry.response.content.mimeType ≠ "" then
          some ⟨entry.response.content.size, entry.response.content.mimeType, none, none, none⟩
        else none }
  cache :=
    if entry.cache.comment ≠ "" ∨ entry.cache.beforeRequest ≠ none ∨
        entry.cache.afterRequest ≠ none then
      some entry.cache
    else none
  timings :=
    { blocked := if entry.timings.blocked ≠ 0 then some entry.timings.blocked else none
      dns := if entry.timings.dns ≠ 0 then some entry.timings.dns else none
      connect := if entry.timings.connect ≠ 0 then some entry.timings.connect else none
      send := if entry.timings.send ≠ 0 then some entry.timings.send else none
      wait := if entry.timings.wait ≠ 0 then some entry.timings.wait else none
      receive := if entry.timings.receive ≠ 0 then some entry.timings.receive else none
      ssl := if entry.timings.ssl ≠ 0 then some entry.timings.ssl else none
      blockedQueueing := if entry.timings.blockedQueueing ≠ 0 then some entry.timings.blockedQueueing else none
      blockedProxy := if entry.timings.blockedProxy ≠ 0 then some entry.timings.blockedProxy else none }
  pageRef := if entry.pageref ≠ "" then some entry.pageref else none
  serverIP := if entry.serverIPAddress ≠ "" then some entry.serverIPAddress else none
  connection := if entry.connection ≠ "" then some entry.connection else none

/-- stdContentOfOpt is the Go block `if entry.Response.Content != nil`
of `convertToStandardEntry`: only `Size` and `MimeType` are copied, and
a nil optimized content leaves the zero-valued `Content`. -/
def stdContentOfOpt : Option OptimizedContent → Content
  | some c => ⟨c.size, c.mimeType, "", ""⟩
  | none => ⟨0, "", "", ""⟩

/-- convertToStandardEntry models the Go function of the same name.
Fields never assigned by the Go code stay at their zero values:
`QueryString` and `PostData` of the request, `Text`/`Encoding` of the
content, `Error` of the response and the extension fields of the
entry. -/
def convertToStandardEntry (entry : OptimizedEntries) : Entries where
  startedDateTime := entry.startedDateTime
  time := entry.time
  request :=
    { method := methodString entry.request.method
      url := entry.request.url
      httpVersion := entry.request.httpVersion
      cookies := entry.request.cookies
      headers := mapToHeaders entry.request.headers
      queryString := []
      postData := none
      headersSize := entry.request.headersSize.getD 0
      bodySize := entry.request.bodySize.getD 0 }
  response :=
    { status := entry.response.status
      statusText := entry.response.statusText
      httpVersion := entry.response.httpVersion
      cookies := entry.response.cookies
      headers := mapToHeaders entry.response.headers
      content := stdContentOfOpt entry.response.content
      redirectURL := entry.response.redirectURL
      headersSize := entry.response.headersSize.getD 0
      bodySize := entry.response.bodySize.getD 0
      transferSize := entry.response.transferSize.getD 0
      error := none }
  cache := entry.cache.getD ⟨none, none, ""⟩
  timings :=
    { blocked := entry.timings.blocked.getD 0
      dns := entry.timings.dns.getD 0
      connect := entry.timings.connect.getD 0
      ssl := entry.timings.ssl.getD 0
      send := entry.timings.send.getD 0
      wait := entry.timings.wait.getD 0
      receive := entry.timings.receive.getD 0
      blockedQueueing := entry.timings.blockedQueueing.getD 0
      blockedProxy := entry.timings.blockedProxy.getD 0 }
  pageref := entry.pageRef.getD ""
  serverIPAddress := entry.serverIP.getD ""
  connection := entry.connection.getD ""
  initiator := ""
  priority := ""
  resourceType := ""

/-- ToOptimizedHar models the Go function of the same name. -/
def ToOptimizedHar (h : Har) : OptimizedHar where
  version := h.log.version
  creator := h.log.creator
  pages := h.log.pages
  entries := h.entriesList.map convertToOptimizedEntry

/-- OptimizedHar.ToStandardHar models the Go method of the same name;
`make` always produces a non-nil slice, hence `some`. -/
def OptimizedHar.ToStandardHar (oh : OptimizedHar) : Har :=
  ⟨⟨oh.version, oh.creator, oh.pages, some (oh.entries.map convertToStandardEntry)⟩⟩

end GoHar

namespace GoHar

theorem getD_if_ne_zero (x : Int) : (if x ≠ 0 then some x else none).getD 0 = x := by
  by_cases h : x = 0 <;> simp [h]

theorem getD_if_ne_empty (s : String) : (if s ≠ "" then some s else none).getD "" = s := by
  by_cases h : s = "" <;> simp [h]

theorem getD_cache_round (c : Cache) :
    (if c.comment ≠ "" ∨ c.beforeRequest ≠ none ∨ c.afterRequest ≠ none then
      some c else none).getD ⟨none, none, ""⟩ = c := by
  by_cases h : c.comment ≠ "" ∨ c.beforeRequest ≠ none ∨ c.afterRequest ≠ none
  · simp [h]
  · push_neg at h
    obtain ⟨h1, h2, h3⟩ := h
    cases c
    simp_all

theorem stdContentOfOpt_round (c : Content) :
    stdContentOfOpt (if c.size ≠ 0 ∨ c.mimeType ≠ "" then
      some ⟨c.size, c.mimeType, none, none, none⟩ else none) =
    ⟨c.size, c.mimeType, "", ""⟩ := by
  by_cases h : c.size ≠ 0 ∨ c.mimeType ≠ ""
  · simp [h, stdContentOfOpt]
  · push_neg at h
    simp [h, stdContentOfOpt, h.1, h.2]

/-- roundTripEntry_eq characterizes one entry's compact round trip
exactly: the method string is re-derived from the method enumeration,
the header lists pass through the name-keyed map, and the query string,
post data, content text and encoding, response error and entry
extension fields are lost. -/
theorem roundTripEntry_eq (e : Entries) :
    convertToStandardEntry (convertToOptimizedEntry e) =
      { e with
        request := { e.request with
          method := methodString (ParseMethod e.request.method)
          headers := mapToHeaders (headersToMap e.request.headers)
          queryString := []
          postData := none }
        response := { e.response with
          headers := mapToHeaders (headersToMap e.response.headers)
          content := ⟨e.response.content.size, e.response.content.mimeType, "", ""⟩
          error := none }
        initiator := ""
        priority := ""
        resourceType := "" } := by
  simp only [convertToOptimizedEntry, convertToStandardEntry, getD_if_ne_zero,
    getD_if_ne_empty, getD_cache_round, stdContentOfOpt_round]

theorem foldl_mapInsert_fresh (hs : List Headers) (acc : GoMap)
    (hfresh : ∀ h ∈ hs, ∀ p ∈ acc, p.1 ≠ h.name)
    (hnd : (hs.map Headers.name).Nodup) :
    hs.foldl (fun m h => mapInsert m h.name h.value) acc
      = acc ++ hs.map (fun h => (h.name, h.value)) := by
  induction hs generalizing acc with
  | nil => simp
  | cons h t ih =>
    simp only [List.foldl_cons]
    have hnot : acc.any (fun p => decide (p.1 = h.name)) = false := by
      simp only [List.any_eq_false, decide_eq_true_eq]
      intro p hp
      exact hfresh h (by simp) p hp
    have hins : mapInsert acc h.name h.value = acc ++ [(h.name, h.value)] := by
      simp [mapInsert, hnot]
    rw [hins, ih (acc ++ [(h.name, h.value)])]
    · simp
    · intro h2 hh2 p hp
      rcases List.mem_append.mp hp with hacc | hsing
      · exact hfresh h2 (List.mem_cons_of_mem h hh2) p hacc
      · have hp1 : p = (h.name, h.value) := by simpa using hsing
        subst hp1
        simp only [List.map_cons, List.nodup_cons] at hnd
        intro heq
        change h.name = h2.name at heq
        apply hnd.1
        rw [heq]
        exact List.mem_map_of_mem Headers.name hh2
    · simp only [List.map_cons, List.nodup_cons] at hnd
      exact hnd.2

/-- headersMap_round shows the map round trip restores the header list
itself (in this deterministic model) when header names are pairwise
distinct. -/
theorem headersMap_round (hs : List Headers) (hnd : (hs.map Headers.name).Nodup) :
    mapToHeaders (headersToMap hs) = hs := by
  unfold headersToMap
  rw [foldl_mapInsert_fresh hs [] (by simp) hnd]
  simp only [List.nil_append, mapToHeaders, List.map_map]
  exact List.map_id hs

end GoHar

namespace GoHar

/-- sampleContent is a concrete response content used by the concrete
archives below. -/
def sampleContent : Content := ⟨1024, "application/json", "", ""⟩

/-- sampleRequest is a concrete valid request carrying one header and
one query-string parameter. -/
def sampleRequest : Request :=
  ⟨"GET", "https://example.com/test", "HTTP/1.1", [],
    [⟨"Accept", "application/json"⟩], [⟨"id", "12345"⟩], none, 150, 0⟩

/-- sampleResponse is a concrete valid response. -/
def sampleResponse : Response :=
  ⟨200, "OK", "HTTP/1.1", [], [⟨"Content-Type", "application/json"⟩],
    sampleContent, "", 120, 1024, 1144, none⟩

/-- sampleTimings is a concrete set of timings. -/
def sampleTimings : Timings := ⟨12, 10, 25, 20, 5, 75, 15, 0, 0⟩

/-- sampleEntry is a concrete entry passing every validator check. -/
def sampleEntry : Entries :=
  ⟨1700000000, 350, sampleRequest, sampleResponse, ⟨none, none, ""⟩,
    sampleTimings, "page_1", "192.168.1.1", "close", "", "", ""⟩

/-- c1Archive is a concrete valid archive with one entry whose request
has a non-empty query string. -/
def c1Archive : Har :=
  ⟨⟨"1.2", ⟨"Go-HAR Test", "1.0"⟩, [], some [sampleEntry]⟩⟩

theorem validate_none_entries_ne (h : Har) (hval : ValidateHarFile h = none) :
    h.log.entries ≠ none := by
  intro hnone
  unfold ValidateHarFile at hval
  by_cases hb : validateBasicStructure h ≠ []
  · simp [hb] at hval
  · push_neg at hb
    unfold validateBasicStructure at hb
    simp [hnone] at hb

/-- C1 counterexample: the compact round trip does not preserve the set
of query-string name/value pairs of a valid archive: the query pair
survives in the original but the round-tripped archive's entry has an
empty query string (`convertToOptimizedEntry` never copies
`QueryString` into the optimized map and `convertToStandardEntry` never
rebuilds it), so the two archives differ. -/
theorem c1_compact_roundtrip_counterexample :
    ValidateHarFile c1Archive = none ∧
    c1Archive.entriesList.map (fun e => e.request.queryString) = [[⟨"id", "12345"⟩]] ∧
    (OptimizedHar.ToStandardHar (ToOptimizedHar c1Archive)).entriesList.map
      (fun e => e.request.queryString) = [[]] ∧
    OptimizedHar.ToStandardHar (ToOptimizedHar c1Archive) ≠ c1Archive :=
  ⟨by decide, by decide, by decide, by decide⟩

/-- C1 (amended): for a valid archive whose request methods are among
the nine canonical upper-case verbs and whose header names are pairwise
distinct per list, the compact round trip preserves the version,
creator, pages and, per entry, every field and the set of header
name/value pairs of request and response, except that the query string
is emptied, the post data is dropped, the response content is reduced
to its size and MIME type (text and encoding are lost), and the
response error and entry extension fields are dropped. -/
theorem c1_compact_roundtrip_amended (h : Har)
    (hval : ValidateHarFile h = none)
    (hmeth : ∀ e ∈ h.entriesList, methodString (ParseMethod e.request.method) = e.request.method)
    (hreqnd : ∀ e ∈ h.entriesList, (e.request.headers.map Headers.name).Nodup)
    (hrespnd : ∀ e ∈ h.entriesList, (e.response.headers.map Headers.name).Nodup) :
    (OptimizedHar.ToStandardHar (ToOptimizedHar h)).log.version = h.log.version ∧
    (OptimizedHar.ToStandardHar (ToOptimizedHar h)).log.creator = h.log.creator ∧
    (OptimizedHar.ToStandardHar (ToOptimizedHar h)).log.pages = h.log.pages ∧
    ∃ es, h.log.entries = some es ∧
      (OptimizedHar.ToStandardHar (ToOptimizedHar h)).log.entries =
        some (es.map (fun e => convertToStandardEntry (convertToOptimizedEntry e))) ∧
      ∀ e ∈ es,
        (∀ p, p ∈ (convertToStandardEntry (convertToOptimizedEntry e)).request.headers ↔
          p ∈ e.request.headers) ∧
        (∀ p, p ∈ (convertToStandardEntry (convertToOptimizedEntry e)).response.headers ↔
          p ∈ e.response.headers) ∧
        convertToStandardEntry (convertToOptimizedEntry e) =
          { e with
            request := { e.request with queryString := [], postData := none }
            response := { e.response with
              content := ⟨e.response.content.size, e.response.content.mimeType, "", ""⟩
              error := none }
            initiator := ""
            priority := ""
            resourceType := "" } := by
  refine ⟨rfl, rfl, rfl, ?_⟩
  obtain ⟨es, hes⟩ := Option.ne_none_iff_exists'.mp (validate_none_entries_ne h hval)
  have hlist : h.entriesList = es := by
    rw [Har.entriesList, hes]
    rfl
  refine ⟨es, hes, ?_, ?_⟩
  · simp [OptimizedHar.ToStandardHar, ToOptimizedHar, hlist, List.map_map, Function.comp]
  · intro e he
    have hmem : e ∈ h.entriesList := by rw [hlist]; exact he
    have hhr : mapToHeaders (headersToMap e.request.headers) = e.request.headers :=
      headersMap_round _ (hreqnd e hmem)
    have hhp : mapToHeaders (headersToMap e.response.headers) = e.response.headers :=
      headersMap_round _ (hrespnd e hmem)
    refine ⟨?_, ?_, ?_⟩
    · intro p
      rw [roundTripEntry_eq, hhr]
    · intro p
      rw [roundTripEntry_eq, hhp]
    · rw [roundTripEntry_eq, hhr, hhp, hmeth e hmem]

/-- c1 witness: the amended round-trip theorem applies to the concrete
valid archive `c1Archive`. -/
theorem c1_compact_roundtrip_amended_witness :
    ValidateHarFile c1Archive = none ∧
    (OptimizedHar.ToStandardHar (ToOptimizedHar c1Archive)).log.version =
      c1Archive.log.version :=
  ⟨by decide,
    (c1_compact_roundtrip_amended c1Archive (by decide) (by decide) (by decide)
      (by decide)).1⟩

end GoHar

namespace GoHar

/-- c5BadEntry is `sampleEntry` with its request method removed. -/
def c5BadEntry : Entries :=
  { sampleEntry with request := { sampleRequest with method := "" } }

/-- c5Archive pairs a basic-structure violation (empty creator name)
with an entry-level violation (empty request method). -/
def c5Archive : Har :=
  ⟨⟨"1.2", ⟨"", "1.0"⟩, [], some [c5BadEntry]⟩⟩

/-- C5 counterexample: `ValidateHarFile` does not collect every
violation in one pass.  On an archive with both a missing creator name
and an entry with an empty request method, the returned partial-error
list contains only the basic-structure violation; the entry violation,
which `validateEntries` would report, is absent because of the early
return after `validateBasicStructure`. -/
theorem c5_validator_counterexample :
    ValidateHarFile c5Archive = some [NewMissingFieldError "log.creator.name"] ∧
    NewValidationError "request must have a method" "log.entries[0].request.method" ∈
      validateEntries c5Archive.entriesList ∧
    NewValidationError "request must have a method" "log.entries[0].request.method" ∉
      [NewMissingFieldError "log.creator.name"] :=
  ⟨by decide, by decide, by decide⟩

/-- C5 (amended): validation is two-phase.  `ValidateHarFile` returns
nil exactly when no check anywhere reports a violation; when the
basic-structure checks (version, creator name/version, non-nil entries)
fail, their violations are returned alone and the version, entry and
page checks never run; only when the basic structure is intact are the
version, entry and page violations all collected into the single
returned error. -/
theorem c5_validator_amended (h : Har) :
    (ValidateHarFile h = none ↔
      validateBasicStructure h = [] ∧ versionSwitchErrs h = [] ∧
      validateEntries h.entriesList = [] ∧ validatePages h.log.pages = []) ∧
    (validateBasicStructure h ≠ [] →
      ValidateHarFile h = some (validateBasicStructure h)) ∧
    (validateBasicStructure h = [] →
      versionSwitchErrs h ++ validateEntries h.entriesList ++ validatePages h.log.pages ≠ [] →
      ValidateHarFile h =
        some (versionSwitchErrs h ++ validateEntries h.entriesList ++ validatePages h.log.pages)) := by
  have hdef : ValidateHarFile h =
      if validateBasicStructure h ≠ [] then some (validateBasicStructure h)
      else if versionSwitchErrs h ++ validateEntries h.entriesList ++
          validatePages h.log.pages ≠ [] then
        some (versionSwitchErrs h ++ validateEntries h.entriesList ++ validatePages h.log.pages)
      else none := rfl
  by_cases hb : validateBasicStructure h = []
  · rw [hdef, if_neg (by simp [hb])]
    by_cases hr : versionSwitchErrs h ++ validateEntries h.entriesList ++
        validatePages h.log.pages = []
    · rw [if_neg (by simp [hr])]
      obtain ⟨h12, hp⟩ := List.append_eq_nil.mp hr
      obtain ⟨hv, he⟩ := List.append_eq_nil.mp h12
      refine ⟨?_, ?_, ?_⟩
      · simp [hb, hv, he, hp]
      · intro hb2
        exact absurd hb hb2
      · intro _ hr2
        exact absurd hr hr2
    · rw [if_pos hr]
      refine ⟨?_, ?_, ?_⟩
      · constructor
        · intro hsome
          exact absurd hsome (by simp)
        · rintro ⟨_, hv, he, hp⟩
          exact absurd (by simp [hv, he, hp]) hr
      · intro hb2
        exact absurd hb hb2
      · intro _ _
        rfl
  · rw [hdef, if_pos hb]
    refine ⟨?_, ?_, ?_⟩
    · constructor
      · intro hsome
        exact absurd hsome (by simp)
      · rintro ⟨hb2, _⟩
        exact absurd hb2 hb
    · intro _
      rfl
    · intro hb2
      exact absurd hb2 hb

/-- c5 witness: on the concrete archive with a broken basic structure,
the amended theorem yields the basic-only error list. -/
theorem c5_validator_amended_witness :
    validateBasicStructure c5Archive ≠ [] ∧
    ValidateHarFile c5Archive = some (validateBasicStructure c5Archive) :=
  ⟨by decide, (c5_validator_amended c5Archive).2.1 (by decide)⟩

/-- recognizedVersion collects the conditions under which
`DetectHarVersion` does not fall back to the baseline: the trimmed
version is one of the three supported versions or begins with one of
their prefixes. -/
def recognizedVersion (v : String) : Bool :=
  IsValidHarVersion (goTrimSpace v) || goHasPrefix (goTrimSpace v) "1.1" ||
    goHasPrefix (goTrimSpace v) "1.2" || goHasPrefix (goTrimSpace v) "1.3"

/-- mkVersionHar builds an archive whose log carries the given version
string. -/
def mkVersionHar (v : String) : Har :=
  ⟨⟨v, ⟨"c", "1"⟩, [], some []⟩⟩

/-- C7: version normalization is a prefix match with baseline "1.2":
"1.2.1" normalizes to "1.2", "1.3.5" to "1.3", and every unrecognized
or empty version string (such as "0.9" or "") to "1.2"; a nil archive
also yields "1.2". -/
theorem c7_version_normalization :
    DetectHarVersion (some (mkVersionHar "1.2.1")) = "1.2" ∧
    DetectHarVersion (some (mkVersionHar "1.3.5")) = "1.3" ∧
    DetectHarVersion (some (mkVersionHar "0.9")) = "1.2" ∧
    DetectHarVersion (some (mkVersionHar "")) = "1.2" ∧
    DetectHarVersion none = "1.2" ∧
    ∀ h : Har, recognizedVersion h.log.version = false →
      DetectHarVersion (some h) = "1.2" := by
  refine ⟨by decide, by decide, by decide, by decide, by decide, ?_⟩
  intro h hnr
  unfold recognizedVersion at hnr
  simp only [Bool.or_eq_false_iff] at hnr
  obtain ⟨⟨⟨h1, h2⟩, h3⟩, h4⟩ := hnr
  by_cases hv : h.log.version = ""
  · simp [DetectHarVersion, hv]
  · simp [DetectHarVersion, hv, h1, h2, h3, h4]

/-- c7 witness: a concrete unrecognized version maps to the baseline
through the general clause of the theorem. -/
theorem c7_version_normalization_witness :
    recognizedVersion (mkVersionHar "2.0").log.version = false ∧
    DetectHarVersion (some (mkVersionHar "2.0")) = "1.2" :=
  ⟨by decide, c7_version_normalization.2.2.2.2.2 (mkVersionHar "2.0") (by decide)⟩

end GoHar

namespace GoHar

/-- TimingsDoc models the JSON value of an entry's `timings` object:
each key may be present (with a numeric value) or absent. -/
structure TimingsDoc where
  blocked : Option Int
  dns : Option Int
  connect : Option Int
  ssl : Option Int
  send : Option Int
  wait : Option Int
  receive : Option Int
  blockedQueueing : Option Int
  blockedProxy : Option Int
  deriving DecidableEq, Repr

/-- decodeTimings models `encoding/json` unmarshalling of a timings
object into the Go `Timings` struct: every target field is a plain
`float64`, so an absent key leaves the zero value `0`. -/
def decodeTimings (d : TimingsDoc) : Timings :=
  ⟨d.blocked.getD 0, d.dns.getD 0, d.connect.getD 0, d.ssl.getD 0,
    d.send.getD 0, d.wait.getD 0, d.receive.getD 0,
    d.blockedQueueing.getD 0, d.blockedProxy.getD 0⟩

/-- sslAbsentDoc is a timings object with no `ssl` key. -/
def sslAbsentDoc : TimingsDoc :=
  ⟨some 12, some 10, some 25, none, some 5, some 75, some 15, none, none⟩

/-- sslZeroDoc is the same timings object with an explicit `"ssl": 0`. -/
def sslZeroDoc : TimingsDoc := { sslAbsentDoc with ssl := some 0 }

/-- C4 counterexample: after strict decoding, an absent `ssl` key yields
`Ssl == 0`, not `-1`, and the decoded `Timings` value is identical to
the one obtained from an explicit `"ssl": 0` — the two inputs are not
distinguishable. -/
theorem c4_ssl_sentinel_counterexample :
    (decodeTimings sslAbsentDoc).ssl = 0 ∧
    (decodeTimings sslAbsentDoc).ssl ≠ -1 ∧
    (decodeTimings sslZeroDoc).ssl = 0 ∧
    decodeTimings sslAbsentDoc = decodeTimings sslZeroDoc :=
  ⟨by decide, by decide, by decide, by decide⟩

/-- C4 (amended): for every timings object, an absent `ssl` key decodes
to `Ssl == 0` — the same value as an explicit `"ssl": 0` — so the two
inputs are indistinguishable after strict decode; the `Timings` struct
has no pointer fields and no custom unmarshaller, and the `-1` sentinel
only arises elsewhere (builder defaults and the optimized
representation's `ToStandard`). -/
theorem c4_ssl_sentinel_amended (d : TimingsDoc) (habs : d.ssl = none) :
    (decodeTimings d).ssl = 0 ∧
    (decodeTimings { d with ssl := some 0 }).ssl = 0 ∧
    decodeTimings d = decodeTimings { d with ssl := some 0 } := by
  refine ⟨by simp [decodeTimings, habs], by simp [decodeTimings], ?_⟩
  simp [decodeTimings, habs]

/-- c4 witness: the amended theorem applies to the concrete timings
object without an `ssl` key. -/
theorem c4_ssl_sentinel_amended_witness :
    sslAbsentDoc.ssl = none ∧ (decodeTimings sslAbsentDoc).ssl = 0 :=
  ⟨by decide, (c4_ssl_sentinel_amended sslAbsentDoc (by decide)).1⟩

/-- Options models the Go `options` struct of the function-option
parsing entry point. -/
structure Options where
  lenient : Bool
  skipValidation : Bool
  collectWarnings : Bool
  maxWarnings : Int
  useMemoryOptimized : Bool
  useLazyLoading : Bool
  useStreaming : Bool
  harVersion : String
  autoDetectVersion : Bool
  deriving DecidableEq, Repr

/-- defaultOptions models the Go variable of the same name. -/
def defaultOptions : Options :=
  ⟨false, false, false, 100, false, false, false, "1.2", true⟩

/-- WithStreaming models the Go option constructor of the same name. -/
def WithStreaming (o : Options) : Options := { o with useStreaming := true }

/-- WithMemoryOptimized models the Go option constructor of the same
name. -/
def WithMemoryOptimized (o : Options) : Options := { o with useMemoryOptimized := true }

/-- WithLazyLoading models the Go option constructor of the same name. -/
def WithLazyLoading (o : Options) : Options := { o with useLazyLoading := true }

/-- applyOptions models the Go function of the same name: fold the
option functions over the defaults. -/
def applyOptions (opts : List (Options → Options)) : Options :=
  opts.foldl (fun o f => f o) defaultOptions

/-- goHasSuffix models Go `strings.HasSuffix`, written over the
character list so that it evaluates inside the kernel. -/
def goHasSuffix (s suf : String) : Bool :=
  s.toList.reverse.take suf.toList.length == suf.toList.reverse

/-- isJSONContent models the Go function of the same name: the trimmed
input must be brace- or bracket-delimited. -/
def isJSONContent (s : String) : Bool :=
  let trimmed := goTrimSpace s
  (goHasPrefix trimmed "\x7b" && goHasSuffix trimmed "\x7d") ||
    (goHasPrefix trimmed "[" && goHasSuffix trimmed "]")

/-- validateInput models the Go function of the same name: an empty or
non-JSON-shaped buffer is rejected with an InvalidFormat error. -/
def validateInput (s : String) : Option ErrorCode :=
  if s.length = 0 then some ErrorCode.invalidFormat
  else if ¬ isJSONContent s then some ErrorCode.invalidFormat
  else none

/-- Strategy names the sub-parser `parseWithStrategy` delegates to. -/
inductive Strategy where
  | memoryOptimized
  | lazyLoading
  | standard
  deriving DecidableEq, Repr

/-- parseWithStrategy models the Go function of the same name up to
strategy dispatch: with streaming requested it returns an Unsupported
error before any sub-parser runs; otherwise it reports which sub-parser
is invoked (whose result the studied property does not depend on). -/
def parseWithStrategy (o : Options) : Except ErrorCode Strategy :=
  if o.useStreaming then Except.error ErrorCode.unsupported
  else if o.useMemoryOptimized then Except.ok Strategy.memoryOptimized
  else if o.useLazyLoading then Except.ok Strategy.lazyLoading
  else Except.ok Strategy.standard

/-- Parse models the Go entry point of the same name down to strategy
dispatch: apply the options, validate the input, then dispatch.  An
`Except.error` result models Go's `(nil, err)` return. -/
def Parse (s : String) (opts : List (Options → Options)) : Except ErrorCode Strategy :=
  let o := applyOptions opts
  match validateInput s with
  | some e => Except.error e
  | none => parseWithStrategy o

/-- C10 counterexample: `Parse` of an empty buffer with the streaming
option returns an InvalidFormat error, not an Unsupported one — input
validation runs before strategy dispatch — so the claim does not hold
for every input buffer. -/
theorem c10_streaming_counterexample :
    Parse "" [WithStreaming] = Except.error ErrorCode.invalidFormat ∧
    ErrorCode.invalidFormat ≠ ErrorCode.unsupported :=
  ⟨rfl, by decide⟩

/-- C10 (amended): with the streaming option set, `Parse` never
produces a provider for any buffer and any other options, and for every
buffer that passes input validation (non-empty and JSON-shaped) it
returns an error of kind Unsupported; empty or non-JSON-shaped buffers
fail input validation first with an InvalidFormat error and still yield
no provider. -/
theorem c10_streaming_amended (s : String) (opts : List (Options → Options))
    (hstream : (applyOptions opts).useStreaming = true) :
    (∀ st, Parse s opts ≠ Except.ok st) ∧
    (validateInput s = none → Parse s opts = Except.error ErrorCode.unsupported) := by
  unfold Parse parseWithStrategy
  cases hv : validateInput s with
  | some e => simp
  | none => simp [hstream]

/-- c10 witness: on the concrete JSON-shaped buffer, streaming dispatch
yields the Unsupported error. -/
theorem c10_streaming_amended_witness :
    (applyOptions [WithStreaming]).useStreaming = true ∧
    validateInput "\x7b\x7d" = none ∧
    Parse "\x7b\x7d" [WithStreaming] = Except.error ErrorCode.unsupported :=
  ⟨by decide, by decide,
    (c10_streaming_amended "\x7b\x7d" [WithStreaming] (by decide)).2 (by decide)⟩

end GoHar

namespace GoHar

/-- ContentDoc models the JSON value of a response `content` field:
size and MIME type plus optionally present text, encoding and comment
members. -/
structure ContentDoc where
  size : Int
  mimeType : String
  text : Option String
  encoding : Option String
  comment : Option String
  deriving DecidableEq, Repr

/-- LazyContent models the Go struct of the same name: size, MIME type
and comment are decoded eagerly, text and encoding stay nil until
loaded, and `rawData` retains the content's raw JSON (here: its typed
document). -/
structure LazyContent where
  size : Int
  mimeType : String
  text : Option String
  encoding : Option String
  comment : String
  rawData : ContentDoc
  loaded : Bool
  deriving DecidableEq, Repr

/-- LazyContent.unmarshalJSON models the custom `UnmarshalJSON` of
`LazyContent`: keep the raw data, decode only size, MIME type and
comment, and mark the value unloaded. -/
def LazyContent.unmarshalJSON (d : ContentDoc) : LazyContent :=
  ⟨d.size, d.mimeType, none, none, d.comment.getD "", d, false⟩

/-- LazyContent.Load models the Go method of the same name: a no-op
when already loaded, otherwise decode text and encoding from the
retained raw data and mark the value loaded.  On a raw span that came
from a successful parse the re-decode cannot fail, so no error case is
modelled. -/
def LazyContent.Load (lc : LazyContent) : LazyContent :=
  if lc.loaded then lc
  else { lc with text := lc.rawData.text, encoding := lc.rawData.encoding, loaded := true }

/-- LazyContent.GetText models the Go method of the same name: load on
first access and return the text pointer. -/
def LazyContent.GetText (lc : LazyContent) : Option String :=
  if lc.loaded then lc.text else lc.Load.text

/-- LazyResponse models the Go struct of the same name. -/
structure LazyResponse where
  status : Int
  statusText : String
  httpVersion : String
  cookies : List Cookie
  headers : List Headers
  redirectURL : String
  headersSize : Int
  bodySize : Int
  content : Option LazyContent
  transferSize : Int
  error : Option String
  deriving DecidableEq, Repr

/-- LazyEntries models the Go struct of the same name. -/
structure LazyEntries where
  startedDateTime : Int
  time : Int
  request : Request
  response : LazyResponse
  cache : Cache
  timings : Timings
  pageref : String
  initiator : String
  priority : String
  resourceType : String
  connection : String
  serverIPAddress : String
  deriving DecidableEq, Repr

/-- LazyHar models the Go struct of the same name (the anonymous `Log`
wrapper struct is flattened). -/
structure LazyHar where
  version : String
  creator : Creator
  pages : List Pages
  entries : Option (List LazyEntries)
  deriving DecidableEq, Repr

/-- ResponseDoc models the JSON value of an entry's `response` member;
the `content` member may be absent. -/
structure ResponseDoc where
  status : Int
  statusText : String
  httpVersion : String
  cookies : List Cookie
  headers : List Headers
  content : Option ContentDoc
  redirectURL : String
  headersSize : Int
  bodySize : Int
  transferSize : Int
  error : Option String
  deriving DecidableEq, Repr

/-- EntryDoc models the JSON value of one element of the `entries`
array. -/
structure EntryDoc where
  startedDateTime : Int
  time : Int
  request : Request
  response : ResponseDoc
  cache : Cache
  timings : Timings
  pageref : String
  serverIPAddress : String
  connection : String
  initiator : String
  priority : String
  resourceType : String
  deriving DecidableEq, Repr

/-- HarDoc models a syntactically well-formed archive JSON document as
far as the strict and lazy decoders observe it; both decode every
member identically except the response `content`. -/
structure HarDoc where
  version : String
  creator : Creator
  pages : List Pages
  entries : Option (List EntryDoc)
  deriving DecidableEq, Repr

/-- decodeContentStrict models `json.Unmarshal` into the standard
`Content` struct: absent text and encoding members leave empty
strings. -/
def decodeContentStrict (d : ContentDoc) : Content :=
  ⟨d.size, d.mimeType, d.text.getD "", d.encoding.getD ""⟩

/-- decodeResponseStrict models `json.Unmarshal` into the standard
`Response` struct; an absent `content` member leaves the zero-valued
`Content`. -/
def decodeResponseStrict (d : ResponseDoc) : Response :=
  ⟨d.status, d.statusText, d.httpVersion, d.cookies, d.headers,
    (match d.content with
      | some c => decodeContentStrict c
      | none => ⟨0, "", "", ""⟩),
    d.redirectURL, d.headersSize, d.bodySize, d.transferSize, d.error⟩

/-- decodeEntryStrict models `json.Unmarshal` into the standard
`Entries` struct. -/
def decodeEntryStrict (d : EntryDoc) : Entries :=
  ⟨d.startedDateTime, d.time, d.request, decodeResponseStrict d.response,
    d.cache, d.timings, d.pageref, d.serverIPAddress, d.connection,
    d.initiator, d.priority, d.resourceType⟩

/-- decodeHarStrict models `json.Unmarshal` into the standard `Har`
struct. -/
def decodeHarStrict (d : HarDoc) : Har :=
  ⟨⟨d.version, d.creator, d.pages, d.entries.map (List.map decodeEntryStrict)⟩⟩

/-- ParseHar models the strict parser on an archive document (the
emptiness and JSON-shape checks hold by construction at this level):
`json.Unmarshal` into `Har` followed by `ValidateHarFile`; a validation
failure returns no archive. -/
def ParseHar (d : HarDoc) : Except (List PErr) Har :=
  let har := decodeHarStrict d
  match ValidateHarFile har with
  | some errs => Except.error errs
  | none => Except.ok har

/-- decodeResponseLazy models `json.Unmarshal` into `LazyResponse`,
where the `content` member is decoded through
`LazyContent.UnmarshalJSON`. -/
def decodeResponseLazy (d : ResponseDoc) : LazyResponse :=
  ⟨d.status, d.statusText, d.httpVersion, d.cookies, d.headers, d.redirectURL,
    d.headersSize, d.bodySize, d.content.map LazyContent.unmarshalJSON,
    d.transferSize, d.error⟩

/-- decodeEntryLazy models `json.Unmarshal` into `LazyEntries`. -/
def decodeEntryLazy (d : EntryDoc) : LazyEntries :=
  ⟨d.startedDateTime, d.time, d.request, decodeResponseLazy d.response,
    d.cache, d.timings, d.pageref, d.initiator, d.priority, d.resourceType,
    d.connection, d.serverIPAddress⟩

/-- ParseHarWithLazyLoading models the Go function of the same name:
plain unmarshalling into `LazyHar`, with no validation step. -/
def ParseHarWithLazyLoading (d : HarDoc) : LazyHar :=
  ⟨d.version, d.creator, d.pages, d.entries.map (List.map decodeEntryLazy)⟩

/-- lazyEntryToStandard is the per-entry body of the Go
`LazyHar.ToStandardHar` loop.  For a non-nil content the Go code calls
`Load()` — forcing text and encoding — but then constructs the standard
`Content` from `Size` and `MimeType` only, leaving `Text` and
`Encoding` at their zero values. -/
def lazyEntryToStandard (lazyEntry : LazyEntries) : Entries :=
  { startedDateTime := lazyEntry.startedDateTime
    time := lazyEntry.time
    request := lazyEntry.request
    cache := lazyEntry.cache
    timings := lazyEntry.timings
    pageref := lazyEntry.pageref
    initiator := lazyEntry.initiator
    priority := lazyEntry.priority
    resourceType := lazyEntry.resourceType
    connection := lazyEntry.connection
    serverIPAddress := lazyEntry.serverIPAddress
    response :=
      { status := lazyEntry.response.status
        statusText := lazyEntry.response.statusText
        httpVersion := lazyEntry.response.httpVersion
        cookies := lazyEntry.response.cookies
        headers := lazyEntry.response.headers
        redirectURL := lazyEntry.response.redirectURL
        headersSize := lazyEntry.response.headersSize
        bodySize := lazyEntry.response.bodySize
        transferSize := lazyEntry.response.transferSize
        error := lazyEntry.response.error
        content :=
          match lazyEntry.response.content with
          | some lc => ⟨lc.Load.size, lc.Load.mimeType, "", ""⟩
          | none => ⟨0, "", "", ""⟩ } }

/-- LazyHar.ToStandardHar models the Go method of the same name. -/
def LazyHar.ToStandardHar (lh : LazyHar) : Har :=
  ⟨⟨lh.version, lh.creator, lh.pages,
    some ((lh.entries.getD []).map lazyEntryToStandard)⟩⟩

/-- c2ContentDoc is a content member carrying body text. -/
def c2ContentDoc : ContentDoc := ⟨5, "text/plain", some "hello", none, none⟩

/-- c2EntryDoc is a valid entry document whose response content has
body text. -/
def c2EntryDoc : EntryDoc :=
  ⟨1700000000, 350, sampleRequest,
    ⟨200, "OK", "HTTP/1.1", [], [⟨"Content-Type", "text/plain"⟩],
      some c2ContentDoc, "", 120, 5, 125, none⟩,
    ⟨none, none, ""⟩, sampleTimings, "", "", "", "", "", ""⟩

/-- c2HarDoc is a valid archive document with one entry whose response
content has body text. -/
def c2HarDoc : HarDoc :=
  ⟨"1.2", ⟨"Go-HAR Test", "1.0"⟩, [], some [c2EntryDoc]⟩

/-- C2 (code bug): on a valid archive whose response content carries
body text, strict parsing succeeds and retains the text, and the lazy
round trip does call `Load` (the loaded lazy content carries the text),
yet `LazyHar.ToStandardHar` drops the loaded text and encoding when
building the standard `Content`, so the produced `Har` differs from the
strict parse exactly in the body text. -/
theorem c2_lazy_roundtrip_code_bug :
    ParseHar c2HarDoc = Except.ok (decodeHarStrict c2HarDoc) ∧
    (decodeHarStrict c2HarDoc).entriesList.map (fun e => e.response.content.text) =
      ["hello"] ∧
    ((ParseHarWithLazyLoading c2HarDoc).entries.getD []).map
      (fun e => e.response.content.map (fun lc => lc.Load.text)) = [some (some "hello")] ∧
    (ParseHarWithLazyLoading c2HarDoc).ToStandardHar.entriesList.map
      (fun e => e.response.content.text) = [""] ∧
    (ParseHarWithLazyLoading c2HarDoc).ToStandardHar ≠ decodeHarStrict c2HarDoc :=
  ⟨rfl, by decide, by decide, by decide, by decide⟩

end GoHar

namespace GoHar

/-- OptimizedTimings.GetBlocked models the Go accessor: a nil field
yields `-1`. -/
def OptimizedTimings.GetBlocked (t : OptimizedTimings) : Int :=
  match t.blocked with
  | some v => v
  | none => -1

/-- OptimizedTimings.GetDNS models the Go accessor. -/
def OptimizedTimings.GetDNS (t : OptimizedTimings) : Int :=
  match t.dns with
  | some v => v
  | none => -1

/-- OptimizedTimings.GetConnect models the Go accessor. -/
def OptimizedTimings.GetConnect (t : OptimizedTimings) : Int :=
  match t.connect with
  | some v => v
  | none => -1

/-- OptimizedTimings.GetSend models the Go accessor. -/
def OptimizedTimings.GetSend (t : OptimizedTimings) : Int :=
  match t.send with
  | some v => v
  | none => -1

/-- OptimizedTimings.GetWait models the Go accessor. -/
def OptimizedTimings.GetWait (t : OptimizedTimings) : Int :=
  match t.wait with
  | some v => v
  | none => -1

/-- OptimizedTimings.GetReceive models the Go accessor. -/
def OptimizedTimings.GetReceive (t : OptimizedTimings) : Int :=
  match t.receive with
  | some v => v
  | none => -1

/-- OptimizedTimings.GetSSL models the Go accessor. -/
def OptimizedTimings.GetSSL (t : OptimizedTimings) : Int :=
  match t.ssl with
  | some v => v
  | none => -1

/-- OptimizedRequest.GetBodySize models the Go accessor: a nil size
yields `0`. -/
def OptimizedRequest.GetBodySize (r : OptimizedRequest) : Int :=
  match r.bodySize with
  | some v => v
  | none => 0

/-- OptimizedRequest.GetHeadersSize models the Go accessor. -/
def OptimizedRequest.GetHeadersSize (r : OptimizedRequest) : Int :=
  match r.headersSize with
  | some v => v
  | none => 0

/-- OptimizedResponse.GetBodySize models the Go accessor. -/
def OptimizedResponse.GetBodySize (r : OptimizedResponse) : Int :=
  match r.bodySize with
  | some v => v
  | none => 0

/-- OptimizedResponse.GetHeadersSize models the Go accessor. -/
def OptimizedResponse.GetHeadersSize (r : OptimizedResponse) : Int :=
  match r.headersSize with
  | some v => v
  | none => 0

/-- OptimizedEntries.GetPageref models the Go accessor: a nil reference
yields the empty string. -/
def OptimizedEntries.GetPageref (e : OptimizedEntries) : String :=
  match e.pageRef with
  | some v => v
  | none => ""

/-- OptimizedContent.GetText models the Go accessor. -/
def OptimizedContent.GetText (c : OptimizedContent) : String :=
  match c.text with
  | some v => v
  | none => ""

/-- OptimizedContent.GetEncoding models the Go accessor. -/
def OptimizedContent.GetEncoding (c : OptimizedContent) : String :=
  match c.encoding with
  | some v => v
  | none => ""

/-- OptimizedResponse.GetContent models the Go accessor, which returns
a nil `ContentProvider` interface value — modelled as `none` — when the
optimized content is absent; calling a content accessor on that nil
interface panics in Go. -/
def OptimizedResponse.GetContent (r : OptimizedResponse) : Option OptimizedContent :=
  match r.content with
  | none => none
  | some c => some c

/-- LazyContentWrapper models the Go struct `lazyContentWrapper`, the
`ContentProvider` adapter around a possibly-nil `*LazyContent`. -/
structure LazyContentWrapper where
  content : Option LazyContent
  deriving DecidableEq, Repr

/-- LazyContentWrapper.GetSize models the Go accessor. -/
def LazyContentWrapper.GetSize (w : LazyContentWrapper) : Int :=
  match w.content with
  | none => 0
  | some c => c.size

/-- LazyContentWrapper.GetMimeType models the Go accessor. -/
def LazyContentWrapper.GetMimeType (w : LazyContentWrapper) : String :=
  match w.content with
  | none => ""
  | some c => c.mimeType

/-- LazyContentWrapper.GetText models the Go accessor: nil content or
nil text yields the empty string, otherwise the (lazily loaded)
text. -/
def LazyContentWrapper.GetText (w : LazyContentWrapper) : String :=
  match w.content with
  | none => ""
  | some c =>
    match c.GetText with
    | none => ""
    | some t => t

/-- LazyContentWrapper.GetEncoding models the Go accessor: the content
is loaded first, then a nil encoding yields the empty string. -/
def LazyContentWrapper.GetEncoding (w : LazyContentWrapper) : String :=
  match w.content with
  | none => ""
  | some c =>
    match c.Load.encoding with
    | none => ""
    | some v => v

/-- LazyResponse.GetContent models the Go accessor: it always wraps the
(possibly nil) lazy content in a usable `lazyContentWrapper`. -/
def LazyResponse.GetContent (r : LazyResponse) : LazyContentWrapper :=
  ⟨r.content⟩

/-- Response.GetContent models the standard Go accessor, which always
returns the (addressable) content value. -/
def Response.GetContent (r : Response) : Content :=
  r.content

/-- c9Entry is an entry whose response content is the zero value, which
the optimized conversion turns into a nil content pointer. -/
def c9Entry : Entries :=
  { sampleEntry with response := { sampleResponse with content := ⟨0, "", "", ""⟩ } }

/-- C9 counterexample: on the optimized representation produced from an
entry with zero-valued content, `GetContent` returns a nil
`ContentProvider` (modelled as `none`), so the content accessors cannot
be called on its result — the accessor contract is not total at this
point. -/
theorem c9_getcontent_counterexample :
    (convertToOptimizedEntry c9Entry).response.content = none ∧
    OptimizedResponse.GetContent (convertToOptimizedEntry c9Entry).response = none :=
  ⟨by decide, by decide⟩

/-- C9 (amended): every value accessor of the optimized and lazy
representations is total and returns the per-field default on absent
data (`-1` for optimized timings, `0` for sizes, the empty string for
text fields); the standard and lazy `GetContent` always return a usable
content provider; but `OptimizedResponse.GetContent` returns a nil
provider exactly when the optimized content is absent, and callers must
nil-check it before calling content accessors. -/
theorem c9_accessors_amended :
    (∀ t : OptimizedTimings,
      t.GetBlocked = t.blocked.getD (-1) ∧ t.GetDNS = t.dns.getD (-1) ∧
      t.GetConnect = t.connect.getD (-1) ∧ t.GetSend = t.send.getD (-1) ∧
      t.GetWait = t.wait.getD (-1) ∧ t.GetReceive = t.receive.getD (-1) ∧
      t.GetSSL = t.ssl.getD (-1)) ∧
    (∀ r : OptimizedRequest,
      r.GetBodySize = r.bodySize.getD 0 ∧ r.GetHeadersSize = r.headersSize.getD 0) ∧
    (∀ r : OptimizedResponse,
      r.GetBodySize = r.bodySize.getD 0 ∧ r.GetHeadersSize = r.headersSize.getD 0) ∧
    (∀ e : OptimizedEntries, e.GetPageref = e.pageRef.getD "") ∧
    (∀ c : OptimizedContent,
      c.GetText = c.text.getD "" ∧ c.GetEncoding = c.encoding.getD "") ∧
    (LazyContentWrapper.mk none).GetSize = 0 ∧
    (LazyContentWrapper.mk none).GetMimeType = "" ∧
    (LazyContentWrapper.mk none).GetText = "" ∧
    (LazyContentWrapper.mk none).GetEncoding = "" ∧
    (∀ c : LazyContent,
      (LazyContentWrapper.mk (some c)).GetText = c.GetText.getD "" ∧
      (LazyContentWrapper.mk (some c)).GetEncoding = c.Load.encoding.getD "") ∧
    (∀ r : Response, r.GetContent = r.content) ∧
    (∀ r : LazyResponse, r.GetContent = LazyContentWrapper.mk r.content) ∧
    (∀ r : OptimizedResponse, r.GetContent = none ↔ r.content = none) := by
  refine ⟨?_, ?_, ?_, ?_, ?_, rfl, rfl, rfl, rfl, ?_, fun r => rfl, fun r => rfl, ?_⟩
  · intro t
    refine ⟨?_, ?_, ?_, ?_, ?_, ?_, ?_⟩ <;>
      first
      | cases h : t.blocked <;> simp [OptimizedTimings.GetBlocked, h]
      | cases h : t.dns <;> simp [OptimizedTimings.GetDNS, h]
      | cases h : t.connect <;> simp [OptimizedTimings.GetConnect, h]
      | cases h : t.send <;> simp [OptimizedTimings.GetSend, h]
      | cases h : t.wait <;> simp [OptimizedTimings.GetWait, h]
      | cases h : t.receive <;> simp [OptimizedTimings.GetReceive, h]
      | cases h : t.ssl <;> simp [OptimizedTimings.GetSSL, h]
  · intro r
    constructor
    · cases h : r.bodySize <;> simp [OptimizedRequest.GetBodySize, h]
    · cases h : r.headersSize <;> simp [OptimizedRequest.GetHeadersSize, h]
  · intro r
    constructor
    · cases h : r.bodySize <;> simp [OptimizedResponse.GetBodySize, h]
    · cases h : r.headersSize <;> simp [OptimizedResponse.GetHeadersSize, h]
  · intro e
    cases h : e.pageRef <;> simp [OptimizedEntries.GetPageref, h]
  · intro c
    constructor
    · cases h : c.text <;> simp [OptimizedContent.GetText, h]
    · cases h : c.encoding <;> simp [OptimizedContent.GetEncoding, h]
  · intro c
    constructor
    · cases h : c.GetText <;> simp [LazyContentWrapper.GetText, h]
    · cases h : c.Load.encoding <;> simp [LazyContentWrapper.GetEncoding, h]
  · intro r
    cases h : r.content <;> simp [OptimizedResponse.GetContent, h]

end GoHar

namespace GoHar

/-- NewJSONParseError models the Go constructor of the same name (the
wrapped cause is not modelled; messages are English stand-ins). -/
def NewJSONParseError (message fieldPath : String) : PErr :=
  ⟨ErrorCode.jsonParse, message, fieldPath⟩

/-- ParseOptions models the Go struct of the same name. -/
structure ParseOptions where
  lenient : Bool
  skipValidation : Bool
  collectWarnings : Bool
  maxWarnings : Int
  deriving DecidableEq, Repr

/-- FieldDoc models one member of an untyped JSON field map as the
lenient parser sees it: absent, present and decodable to the target
type, or present but failing to decode. -/
inductive FieldDoc (α : Type) where
  | absent
  | ok (a : α)
  | bad
  deriving DecidableEq, Repr

/-- LenEntryDoc models one element of the `entries` array in the form
`json.Unmarshal` treats it: `base` carries every member except the
response status, and `statusField` is either a JSON number (the decode
succeeds) or a JSON string (an `UnmarshalTypeError`: the status keeps
its zero value, every sibling member is still filled in, and
`Unmarshal` returns the error). -/
structure LenEntryDoc where
  base : Entries
  statusField : Sum Int String
  deriving DecidableEq, Repr

/-- goUnmarshalEntry models `json.Unmarshal(entryBytes, &entry)`: the
returned entry and whether the decode succeeded.  On a type error Go
still fills every other field and leaves the bad one at its zero
value, but reports the error. -/
def goUnmarshalEntry (d : LenEntryDoc) : Entries × Bool :=
  match d.statusField with
  | .inl n => ({ d.base with response := { d.base.response with status := n } }, true)
  | .inr _ => ({ d.base with response := { d.base.response with status := 0 } }, false)

/-- LogDoc models the untyped field map of the `log` member exactly as
`parseLenient` probes it: the four members it decodes
independently. -/
structure LogDoc where
  version : FieldDoc String
  creator : FieldDoc Creator
  pages : FieldDoc (List (FieldDoc Pages))
  entries : FieldDoc (List LenEntryDoc)
  deriving DecidableEq, Repr

/-- RootDoc models the untyped top-level field map (the document is an
object by assumption; a non-object document makes `parseLenient` fail
before the modelled region). -/
structure RootDoc where
  log : FieldDoc LogDoc
  deriving DecidableEq, Repr

/-- lenientPagesLoop models the `for i, pageBytes := range pages` loop
of `parseLenient`: decodable pages are appended, failures become one
partial error under `log.pages[i]`. -/
def lenientPagesLoop : Nat → List (FieldDoc Pages) → List Pages × List PErr
  | _, [] => ([], [])
  | i, .ok p :: rest =>
    ((p :: (lenientPagesLoop (i + 1) rest).1), (lenientPagesLoop (i + 1) rest).2)
  | i, _ :: rest =>
    ((lenientPagesLoop (i + 1) rest).1,
      NewJSONParseError "cannot parse page" ("log.pages[" ++ toString i ++ "]") ::
        (lenientPagesLoop (i + 1) rest).2)

/-- lenientEntriesLoop models the `for i, entryBytes := range entries`
loop of `parseLenient`: an entry is appended only when its decode
returned no error; otherwise the (partially filled) entry is discarded
and one partial error is recorded under `log.entries[i]`. -/
def lenientEntriesLoop : Nat → List LenEntryDoc → List Entries × List PErr
  | _, [] => ([], [])
  | i, d :: rest =>
    if (goUnmarshalEntry d).2 then
      ((goUnmarshalEntry d).1 :: (lenientEntriesLoop (i + 1) rest).1,
        (lenientEntriesLoop (i + 1) rest).2)
    else
      ((lenientEntriesLoop (i + 1) rest).1,
        NewJSONParseError "cannot parse entry" ("log.entries[" ++ toString i ++ "]") ::
          (lenientEntriesLoop (i + 1) rest).2)

/-- lenientDecodeLog models the body of `parseLenient` that decodes
`version`, `creator`, `pages` and `entries` independently from the
`log` field map, accumulating partial errors in program order. -/
def lenientDecodeLog (logd : LogDoc) : Har × List PErr :=
  let verPart : String × List PErr :=
    match logd.version with
    | .absent => ("", [])
    | .ok v => (v, [])
    | .bad => ("", [NewJSONParseError "cannot parse version field" "log.version"])
  let creatorPart : Creator × List PErr :=
    match logd.creator with
    | .absent => (⟨"", ""⟩, [])
    | .ok c => (c, [])
    | .bad => (⟨"", ""⟩, [NewJSONParseError "cannot parse creator field" "log.creator"])
  let pagesPart : List Pages × List PErr :=
    match logd.pages with
    | .absent => ([], [])
    | .ok items => lenientPagesLoop 0 items
    | .bad => ([], [NewJSONParseError "cannot parse pages field" "log.pages"])
  let entriesPart : List Entries × List PErr :=
    match logd.entries with
    | .absent => ([], [])
    | .ok items => lenientEntriesLoop 0 items
    | .bad => ([], [NewJSONParseError "cannot parse entries field" "log.entries"])
  (⟨⟨verPart.1, creatorPart.1, pagesPart.1, some entriesPart.1⟩⟩,
    verPart.2 ++ creatorPart.2 ++ pagesPart.2 ++ entriesPart.2)

/-- parseLenient models the Go function of the same name over a
structured document: decode what can be decoded, then apply the
termination policy.  The result pairs the returned archive (or none)
with the partial-error list of the returned root error (or none). -/
def parseLenient (d : RootDoc) (options : ParseOptions) :
    Option Har × Option (List PErr) :=
  let harAndErrs : Har × List PErr :=
    match d.log with
    | .absent => (⟨⟨"", ⟨"", ""⟩, [], some []⟩⟩, [NewMissingFieldError "log"])
    | .bad => (⟨⟨"", ⟨"", ""⟩, [], some []⟩⟩,
        [NewJSONParseError "cannot parse log field" "log"])
    | .ok logd => lenientDecodeLog logd
  let har := harAndErrs.1
  let errs := harAndErrs.2
  if errs ≠ [] ∧ options.collectWarnings then
    if har.log.version ≠ "" ∨ har.entriesList ≠ [] ∨ har.log.pages ≠ [] then
      (some har, some errs)
    else (none, some errs)
  else if errs ≠ [] then (none, some errs)
  else (some har, none)

/-- lenientOptions is the option set of `ParseHarLenient` /
`ParseHarWithWarnings`: lenient with warning collection. -/
def lenientOptions : ParseOptions := ⟨true, false, true, 100⟩

end GoHar

namespace GoHar

theorem lenientEntriesLoop_all_ok (docs : List LenEntryDoc)
    (h : ∀ d ∈ docs, (goUnmarshalEntry d).2 = true) :
    ∀ i, lenientEntriesLoop i docs = (docs.map (fun d => (goUnmarshalEntry d).1), []) := by
  induction docs with
  | nil => intro i; rfl
  | cons d rest ih =>
    intro i
    have hd := h d (by simp)
    simp only [lenientEntriesLoop, hd, if_true, List.map_cons]
    rw [ih (fun d2 hd2 => h d2 (by simp [hd2])) (i + 1)]

theorem lenientEntriesLoop_append (pre : List LenEntryDoc) (bs : List LenEntryDoc) :
    ∀ i, lenientEntriesLoop i (pre ++ bs) =
      ((lenientEntriesLoop i pre).1 ++ (lenientEntriesLoop (i + pre.length) bs).1,
       (lenientEntriesLoop i pre).2 ++ (lenientEntriesLoop (i + pre.length) bs).2) := by
  induction pre with
  | nil => intro i; simp [lenientEntriesLoop]
  | cons d rest ih =>
    intro i
    have hlen : i + (rest.length + 1) = (i + 1) + rest.length := by omega
    simp only [List.cons_append, lenientEntriesLoop, List.length_cons, hlen]
    by_cases hd : (goUnmarshalEntry d).2 <;> simp [hd, ih (i + 1)]

/-- c3GoodDoc is an entries-array element whose response status is the
number 200. -/
def c3GoodDoc : LenEntryDoc := ⟨sampleEntry, Sum.inl 200⟩

/-- c3BadDoc is an entries-array element whose response status is the
string "not-a-number". -/
def c3BadDoc : LenEntryDoc := ⟨sampleEntry, Sum.inr "not-a-number"⟩

/-- c3RootDoc is a document with two entries of which exactly the
second is structurally invalid. -/
def c3RootDoc : RootDoc :=
  ⟨.ok ⟨.ok "1.2", .ok ⟨"Go-HAR Test", "1.0"⟩, .absent, .ok [c3GoodDoc, c3BadDoc]⟩⟩

/-- C3 counterexample: on a document whose two entries contain exactly
one structural failure (`"status": "not-a-number"` in entry 1), lenient
decoding drops the invalid entry instead of keeping it with the bad
field defaulted: the resulting entries list has length 1, not 2, and
the single partial error carries the field path `log.entries[1]` — the
entry itself, not `log.entries[1].response.status` — even though every
other field of that entry was decodable. -/
theorem c3_lenient_entry_counterexample :
    (parseLenient c3RootDoc lenientOptions).1 =
      some ⟨⟨"1.2", ⟨"Go-HAR Test", "1.0"⟩, [], some [sampleEntry]⟩⟩ ∧
    (parseLenient c3RootDoc lenientOptions).1.map (fun h => h.entriesList.length) =
      some 1 ∧
    (parseLenient c3RootDoc lenientOptions).2 =
      some [NewJSONParseError "cannot parse entry" "log.entries[1]"] ∧
    (goUnmarshalEntry c3BadDoc).1.request = sampleEntry.request ∧
    "log.entries[1]" ≠ "log.entries[1].response.status" :=
  ⟨by decide, by decide, by decide, by decide, by decide⟩

/-- C3 (amended): in lenient mode, an entry whose JSON fails to decode
is dropped entirely: for a document with a non-empty version whose
entries array is `pre ++ bad :: post` with every element of `pre` and
`post` decodable and `bad` failing, the returned archive retains
exactly the decoded entries of `pre ++ post` (one fewer than the
input), and the single partial error carries the dotted path
`log.entries[i]` of the dropped entry, not the path of the failing
field inside it. -/
theorem c3_lenient_entry_amended (v : String) (c : Creator)
    (pre post : List LenEntryDoc) (bad : LenEntryDoc)
    (hv : v ≠ "")
    (hpre : ∀ d ∈ pre, (goUnmarshalEntry d).2 = true)
    (hpost : ∀ d ∈ post, (goUnmarshalEntry d).2 = true)
    (hbad : (goUnmarshalEntry bad).2 = false) :
    parseLenient ⟨.ok ⟨.ok v, .ok c, .absent, .ok (pre ++ bad :: post)⟩⟩ lenientOptions =
      (some ⟨⟨v, c, [], some ((pre ++ post).map (fun d => (goUnmarshalEntry d).1))⟩⟩,
       some [NewJSONParseError "cannot parse entry"
         ("log.entries[" ++ toString pre.length ++ "]")]) ∧
    ((pre ++ post).map (fun d => (goUnmarshalEntry d).1)).length =
      (pre ++ bad :: post).length - 1 := by
  have hloopBad : lenientEntriesLoop pre.length (bad :: post) =
      (post.map (fun d => (goUnmarshalEntry d).1),
       [NewJSONParseError "cannot parse entry"
         ("log.entries[" ++ toString pre.length ++ "]")]) := by
    simp [lenientEntriesLoop, hbad,
      lenientEntriesLoop_all_ok post hpost (pre.length + 1)]
  have hloop : lenientEntriesLoop 0 (pre ++ bad :: post) =
      ((pre ++ post).map (fun d => (goUnmarshalEntry d).1),
       [NewJSONParseError "cannot parse entry"
         ("log.entries[" ++ toString pre.length ++ "]")]) := by
    rw [lenientEntriesLoop_append pre (bad :: post) 0,
      lenientEntriesLoop_all_ok pre hpre 0]
    simp only [Nat.zero_add, hloopBad, List.map_append, List.nil_append]
  constructor
  · unfold parseLenient lenientDecodeLog
    simp only [hloop]
    simp [lenientOptions, Har.entriesList, hv]
  · simp only [List.length_map, List.length_append, List.length_cons]
    omega

/-- c3 witness: the amended theorem applies to the concrete two-entry
document with one invalid entry. -/
theorem c3_lenient_entry_amended_witness :
    parseLenient ⟨.ok ⟨.ok "1.2", .ok ⟨"Go-HAR Test", "1.0"⟩, .absent,
        .ok ([c3GoodDoc] ++ c3BadDoc :: [])⟩⟩ lenientOptions =
      (some ⟨⟨"1.2", ⟨"Go-HAR Test", "1.0"⟩, [],
        some (([c3GoodDoc] ++ []).map (fun d => (goUnmarshalEntry d).1))⟩⟩,
       some [NewJSONParseError "cannot parse entry"
         ("log.entries[" ++ toString (List.length [c3GoodDoc]) ++ "]")]) :=
  (c3_lenient_entry_amended "1.2" ⟨"Go-HAR Test", "1.0"⟩ [c3GoodDoc] [] c3BadDoc
    (by decide) (by decide) (by decide) (by decide)).1

end GoHar

namespace GoHar

/-- emptyLogDoc is a document whose `log` member is an empty object:
every probed member is absent. -/
def emptyLogDoc : RootDoc := ⟨.ok ⟨.absent, .absent, .absent, .absent⟩⟩

/-- C8 counterexample: on a document whose `log` object is present but
contains nothing recoverable (no version, no pages, no entries),
lenient decoding does not fail outright: since no per-field decode
produced an error, `parseLenient` returns a non-nil, empty archive with
a nil error, in both warning-collection modes. -/
theorem c8_lenient_failure_counterexample :
    parseLenient emptyLogDoc ⟨true, false, true, 100⟩ =
      (some ⟨⟨"", ⟨"", ""⟩, [], some []⟩⟩, none) ∧
    parseLenient emptyLogDoc ⟨true, false, false, 100⟩ =
      (some ⟨⟨"", ⟨"", ""⟩, [], some []⟩⟩, none) :=
  ⟨by decide, by decide⟩

/-- C8 (amended): a missing or undecodable `log` member always yields a
nil archive and an error, regardless of warning collection; when at
least one per-field decode failed and nothing was recovered (empty
version, no entries, no pages), the result is likewise nil plus the
aggregated error in every mode; when something was recovered and
warning collection is on, the partial archive is returned alongside
the aggregated error; and when no per-field decode failed at all, the
(possibly empty) archive is returned with no error. -/
theorem c8_lenient_failure_amended (opts : ParseOptions) (rd : RootDoc) :
    (rd.log = .absent →
      parseLenient rd opts = (none, some [NewMissingFieldError "log"])) ∧
    (rd.log = .bad →
      parseLenient rd opts =
        (none, some [NewJSONParseError "cannot parse log field" "log"])) ∧
    (∀ logd, rd.log = .ok logd →
      (lenientDecodeLog logd).2 ≠ [] →
      (lenientDecodeLog logd).1.log.version = "" →
      (lenientDecodeLog logd).1.entriesList = [] →
      (lenientDecodeLog logd).1.log.pages = [] →
      parseLenient rd opts = (none, some (lenientDecodeLog logd).2)) ∧
    (∀ logd, rd.log = .ok logd →
      (lenientDecodeLog logd).2 ≠ [] → opts.collectWarnings = true →
      ((lenientDecodeLog logd).1.log.version ≠ "" ∨
        (lenientDecodeLog logd).1.entriesList ≠ [] ∨
        (lenientDecodeLog logd).1.log.pages ≠ []) →
      parseLenient rd opts =
        (some (lenientDecodeLog logd).1, some (lenientDecodeLog logd).2)) ∧
    (∀ logd, rd.log = .ok logd → (lenientDecodeLog logd).2 = [] →
      parseLenient rd opts = (some (lenientDecodeLog logd).1, none)) := by
  refine ⟨?_, ?_, ?_, ?_, ?_⟩
  · intro habs
    unfold parseLenient
    rw [habs]
    by_cases hc : opts.collectWarnings <;> simp [Har.entriesList, hc]
  · intro hbad
    unfold parseLenient
    rw [hbad]
    by_cases hc : opts.collectWarnings <;> simp [Har.entriesList, hc]
  · intro logd hok herr hver hent hpg
    unfold parseLenient
    rw [hok]
    by_cases hc : opts.collectWarnings <;> simp [hc, herr, hver, hent, hpg]
  · intro logd hok herr hc hrec
    unfold parseLenient
    rw [hok]
    rcases hrec with hr | hr | hr <;> simp [hc, herr, hr]
  · intro logd hok herr
    unfold parseLenient
    rw [hok]
    simp [herr]

/-- c8 witness: on a document without a `log` member, lenient decoding
fails outright in warning-collection mode. -/
theorem c8_lenient_failure_amended_witness :
    parseLenient ⟨FieldDoc.absent⟩ ⟨true, false, true, 100⟩ =
      (none, some [NewMissingFieldError "log"]) :=
  (c8_lenient_failure_amended ⟨true, false, true, 100⟩ ⟨FieldDoc.absent⟩).1 rfl

end GoHar

namespace GoHar

/-- Tok models one token of Go's `json.Decoder.Token` stream.  An
`entryTok` atom stands for one complete entry value inside the entries
array: the iterator consumes array elements only through whole-value
`Decode` calls, and its token scan can never reach inside them (the
scan only runs while no entry has been decoded, and entry values occur
after the `entries` key). -/
inductive Tok where
  | objS
  | objE
  | arrS
  | arrE
  | str (s : String)
  | num (n : Int)
  | boolTok (b : Bool)
  | nullTok
  | entryTok (e : Entries)
  deriving DecidableEq, Repr

/-- StreamErr models the error values the iterator can retain: `eof`
is `io.EOF` from `Token()`, `expectedBracket` the "expected `[` after
the entries field" error, `decodeFail` a per-entry decode error. -/
inductive StreamErr where
  | eof
  | expectedBracket
  | decodeFail
  deriving DecidableEq, Repr

/-- defaultEntry is the zero-valued `Entries` the iterator starts
with. -/
def defaultEntry : Entries :=
  ⟨0, 0, ⟨"", "", "", [], [], [], none, 0, 0⟩,
    ⟨0, "", "", [], [], ⟨0, "", "", ""⟩, "", 0, 0, 0, none⟩,
    ⟨none, none, ""⟩, ⟨0, 0, 0, 0, 0, 0, 0, 0, 0⟩, "", "", "", "", "", ""⟩

/-- StreamingEntryIterator models the Go struct of the same name: the
remaining token stream of its decoder, the current position, the
retained error, the closed flag and the current entry. -/
structure StreamingEntryIterator where
  toks : List Tok
  currentPos : Nat
  err : Option StreamErr
  closed : Bool
  entry : Entries
  deriving DecidableEq, Repr

/-- scanEntries models the first-call search loop of `Next`: read
tokens until a string token "entries" is found — key or value alike —
then require the next token to be `[`; running out of tokens is
`io.EOF`. -/
def scanEntries : List Tok → Except StreamErr (List Tok)
  | [] => Except.error StreamErr.eof
  | Tok.str s :: rest =>
    if s = "entries" then
      match rest with
      | [] => Except.error StreamErr.eof
      | Tok.arrS :: rest2 => Except.ok rest2
      | _ :: _ => Except.error StreamErr.expectedBracket
    else scanEntries rest
  | _ :: rest => scanEntries rest

/-- next models `StreamingEntryIterator.Next`: bail out when closed or
on a retained error; on the first call scan for the entries array;
then, if another array element exists (`More()`), decode exactly one
entry and expose it as current, else report exhaustion without
touching the retained state. -/
def next (it : StreamingEntryIterator) : Bool × StreamingEntryIterator :=
  if it.closed ∨ it.err.isSome then (false, it)
  else
    match (if it.currentPos = 0 then scanEntries it.toks else Except.ok it.toks) with
    | Except.error e => (false, { it with err := some e })
    | Except.ok rest =>
      match rest with
      | Tok.entryTok e :: rest2 =>
        (true, { it with toks := rest2, entry := e, currentPos := it.currentPos + 1 })
      | Tok.arrE :: _ => (false, { it with toks := rest })
      | Tok.objE :: _ => (false, { it with toks := rest })
      | [] => (false, { it with toks := rest })
      | _ => (false, { it with toks := rest, err := some StreamErr.decodeFail })

/-- StreamingEntryIterator.Err models the Go method of the same name:
`io.EOF` is masked to nil, any other retained error is returned. -/
def StreamingEntryIterator.Err (it : StreamingEntryIterator) : Option StreamErr :=
  match it.err with
  | some StreamErr.eof => none
  | e => e

/-- mkIter models `StreamingHar.Entries()`: a fresh iterator whose
decoder reads the document's tokens from the start. -/
def mkIter (toks : List Tok) : StreamingEntryIterator :=
  ⟨toks, 0, none, false, defaultEntry⟩

/-- nextRun performs `n` successive `Next` calls and collects their
results. -/
def nextRun : StreamingEntryIterator → Nat → List Bool × StreamingEntryIterator
  | it, 0 => ([], it)
  | it, n + 1 =>
    ((next it).1 :: (nextRun (next it).2 n).1, (nextRun (next it).2 n).2)

/-- harStreamToks is the token stream of an archive document whose log
object ends with the entries array (the Go marshaller emits `entries`
as the last member of `Log`): an arbitrary pre-entries segment, the
`entries` key, the array of entry values, and the closing brackets. -/
def harStreamToks (header : List Tok) (es : List Entries) : List Tok :=
  header ++ ([Tok.str "entries", Tok.arrS] ++
    (es.map Tok.entryTok ++ [Tok.arrE, Tok.objE, Tok.objE]))

theorem scanEntries_append (pre post : List Tok)
    (hclean : ∀ t ∈ pre, t ≠ Tok.str "entries") :
    scanEntries (pre ++ post) = scanEntries post := by
  induction pre with
  | nil => rfl
  | cons t rest ih =>
    have hrest : ∀ t2 ∈ rest, t2 ≠ Tok.str "entries" :=
      fun t2 h2 => hclean t2 (by simp [h2])
    have ht := hclean t (by simp)
    cases t <;> simp_all [scanEntries]

theorem nextRun_entries (es : List Entries) (closing : List Tok) :
    ∀ (p : Nat) (e0 : Entries), p ≠ 0 →
    nextRun ⟨es.map Tok.entryTok ++ closing, p, none, false, e0⟩ es.length =
      (List.replicate es.length true,
       ⟨closing, p + es.length, none, false, es.getLastD e0⟩) := by
  induction es with
  | nil =>
    intro p e0 hp
    simp [nextRun]
  | cons e rest ih =>
    intro p e0 hp
    have hnext : next ⟨(e :: rest).map Tok.entryTok ++ closing, p, none, false, e0⟩ =
        (true, ⟨rest.map Tok.entryTok ++ closing, p + 1, none, false, e⟩) := by
      simp [next, hp]
    simp only [List.length_cons, nextRun, hnext]
    rw [ih (p + 1) e (by omega)]
    have hp2 : p + 1 + rest.length = p + (rest.length + 1) := by omega
    rw [List.replicate_succ, List.getLastD_cons, ← hp2]

end GoHar

namespace GoHar

/-- C6 (amended): over the token stream of a well-formed archive whose
pre-entries segment contains no string token "entries" (neither as a
key nor as a string value), `Next` returns true exactly N times and
then false; after exhaustion `Err` returns nil (end of stream is never
an error — in the zero-entry case the rescan hits `io.EOF`, which `Err`
masks); and any retained non-EOF error makes every further `Next`
return false while `Err` keeps returning that error. -/
theorem c6_streaming_iterator_amended (header : List Tok) (es : List Entries)
    (hclean : ∀ t ∈ header, t ≠ Tok.str "entries") :
    (nextRun (mkIter (harStreamToks header es)) es.length).1 =
      List.replicate es.length true ∧
    (next (nextRun (mkIter (harStreamToks header es)) es.length).2).1 = false ∧
    StreamingEntryIterator.Err
      (next (nextRun (mkIter (harStreamToks header es)) es.length).2).2 = none ∧
    (next (next (nextRun (mkIter (harStreamToks header es)) es.length).2).2).1 = false ∧
    StreamingEntryIterator.Err
      (next (next (nextRun (mkIter (harStreamToks header es)) es.length).2).2).2 = none ∧
    (∀ (it : StreamingEntryIterator) (e : StreamErr), it.err = some e →
      e ≠ StreamErr.eof →
      (next it).1 = false ∧ StreamingEntryIterator.Err (next it).2 = some e) := by
  have hscan : scanEntries (harStreamToks header es) =
      Except.ok (es.map Tok.entryTok ++ [Tok.arrE, Tok.objE, Tok.objE]) := by
    rw [harStreamToks, scanEntries_append header _ hclean]
    simp [scanEntries]
  have hretain : ∀ (it : StreamingEntryIterator) (e : StreamErr), it.err = some e →
      e ≠ StreamErr.eof →
      (next it).1 = false ∧ StreamingEntryIterator.Err (next it).2 = some e := by
    intro it e herr hne
    have hnext : next it = (false, it) := by
      simp [next, herr]
    refine ⟨by rw [hnext], ?_⟩
    rw [hnext]
    unfold StreamingEntryIterator.Err
    rw [herr]
    cases e with
    | eof => exact absurd rfl hne
    | expectedBracket => rfl
    | decodeFail => rfl
  cases es with
  | nil =>
    have h1 : next (mkIter (harStreamToks header [])) =
        (false, ⟨[Tok.arrE, Tok.objE, Tok.objE], 0, none, false, defaultEntry⟩) := by
      simp [next, mkIter, hscan]
    have h2 : next (⟨[Tok.arrE, Tok.objE, Tok.objE], 0, none, false, defaultEntry⟩ :
        StreamingEntryIterator) =
        (false, ⟨[Tok.arrE, Tok.objE, Tok.objE], 0, some StreamErr.eof, false,
          defaultEntry⟩) := by
      simp [next, scanEntries]
    refine ⟨rfl, ?_, ?_, ?_, ?_, hretain⟩
    · show (next (mkIter (harStreamToks header []))).1 = false
      rw [h1]
    · show StreamingEntryIterator.Err (next (mkIter (harStreamToks header []))).2 = none
      rw [h1]
      rfl
    · show (next (next (mkIter (harStreamToks header []))).2).1 = false
      rw [h1]
      rw [h2]
    · show StreamingEntryIterator.Err
        (next (next (mkIter (harStreamToks header []))).2).2 = none
      rw [h1]
      rw [h2]
      rfl
  | cons e rest =>
    have h1 : next (mkIter (harStreamToks header (e :: rest))) =
        (true, ⟨rest.map Tok.entryTok ++ [Tok.arrE, Tok.objE, Tok.objE], 1, none,
          false, e⟩) := by
      simp [next, mkIter, hscan]
    have hrun := nextRun_entries rest [Tok.arrE, Tok.objE, Tok.objE] 1 e (by omega)
    have hstep : nextRun (mkIter (harStreamToks header (e :: rest))) (e :: rest).length =
        (true :: List.replicate rest.length true,
         ⟨[Tok.arrE, Tok.objE, Tok.objE], 1 + rest.length, none, false,
           rest.getLastD e⟩) := by
      simp only [List.length_cons, nextRun, h1]
      rw [hrun]
    have hstop : next (⟨[Tok.arrE, Tok.objE, Tok.objE], 1 + rest.length, none, false,
        rest.getLastD e⟩ : StreamingEntryIterator) =
        (false, ⟨[Tok.arrE, Tok.objE, Tok.objE], 1 + rest.length, none, false,
          rest.getLastD e⟩) := by
      simp [next]
    refine ⟨?_, ?_, ?_, ?_, ?_, hretain⟩
    · rw [hstep]
      simp [List.replicate_succ]
    · rw [hstep]
      show (next _).1 = false
      rw [hstop]
    · rw [hstep]
      show StreamingEntryIterator.Err (next _).2 = none
      rw [hstop]
      rfl
    · rw [hstep]
      show (next (next _).2).1 = false
      rw [hstop, hstop]
    · rw [hstep]
      show StreamingEntryIterator.Err (next (next _).2).2 = none
      rw [hstop, hstop]
      rfl

/-- c6CexToks is the token stream of a well-formed one-entry archive
whose creator name is the string "entries": an adversarial but valid
document. -/
def c6CexToks : List Tok :=
  [Tok.objS, Tok.str "log", Tok.objS,
   Tok.str "version", Tok.str "1.2",
   Tok.str "creator", Tok.objS, Tok.str "name", Tok.str "entries",
     Tok.str "version", Tok.str "1.0", Tok.objE,
   Tok.str "entries", Tok.arrS, Tok.entryTok sampleEntry, Tok.arrE,
   Tok.objE, Tok.objE]

/-- C6 counterexample: on the well-formed archive whose creator name is
"entries" (one entry, so the claim demands one true call and a nil
terminal `Err`), the first `Next` already returns false — the token
scan mistakes the creator-name string value for the entries key and
fails on the following token — and `Err` returns that error instead of
nil. -/
theorem c6_streaming_iterator_counterexample :
    (next (mkIter c6CexToks)).1 = false ∧
    (next (mkIter c6CexToks)).2.err = some StreamErr.expectedBracket ∧
    StreamingEntryIterator.Err (next (mkIter c6CexToks)).2 =
      some StreamErr.expectedBracket :=
  ⟨by decide, by decide, by decide⟩

/-- c6 witness: the amended theorem applies to a concrete clean header
and a one-entry archive. -/
theorem c6_streaming_iterator_amended_witness :
    (nextRun (mkIter (harStreamToks [Tok.objS, Tok.str "log", Tok.objS] [sampleEntry]))
      [sampleEntry].length).1 = List.replicate [sampleEntry].length true :=
  (c6_streaming_iterator_amended [Tok.objS, Tok.str "log", Tok.objS] [sampleEntry]
    (by decide)).1

end GoHar
